import Mathlib

/-!
# The string shim of `deps/spidershim/src/v8string.cc`

A shallow embedding of the string facade that maps the V8 string API onto
SpiderMonkey primitives, with the external-string finalizer bridge at its
centre.

* Heap objects the shim allocates (finalizer bridges, derived two-byte
  buffers) live in a `World`; every deallocation and every `Dispose()` call is
  appended to a log, so "exactly once" is a statement about those logs.
* Fallible allocations take a Boolean telling whether the request succeeds.
* Engine primitives that are declared outside this file are modelled from the
  specification and marked as such.
-/

namespace SpiderShim

/-! ## Machine integers -/

/-- Number of values of `size_t` on the 64-bit targets the shim is built for,
`2 ^ 64`. -/
def SIZE_MOD : Nat := 18446744073709551616

/-- Conversion of a mathematical integer to `int` (32-bit, two's complement):
the representative of `n` modulo `2 ^ 32` in `[-2 ^ 31, 2 ^ 31)`. -/
def toInt32 (n : Int) : Int :=
  if n % 4294967296 < 2147483648 then n % 4294967296 else n % 4294967296 - 4294967296

/-- Conversion of an `int` to `size_t`: reduction modulo `2 ^ 64`. -/
def toSizeT (n : Int) : Nat := (n % 18446744073709551616).toNat

/-! ## Heap model -/

/-- Which static `FinalizeExternalString` the bridge constructor stored in the
`finalize` slot of the `JSStringFinalizer` base. -/
inductive FinalizerKind
  | twoByte
  | oneByte
  deriving DecidableEq, Repr

/-- A finalizer bridge object, `ExternalStringFinalizerBase<T>`: the inherited
`finalize` slot and the nullable `resource_` reference (resources are named by
an identifier). -/
structure Bridge where
  finalize : FinalizerKind
  resource_ : Option Nat
  deriving DecidableEq, Repr

/-- A `char16_t*` as the engine sees it: either a buffer that came from
`js_pod_malloc` in this file, or the `data()` of a two-byte resource, which
the application owns. -/
inductive CharsPtr
  | derived (addr : Nat)
  | borrowed (resource : Nat)
  deriving DecidableEq, Repr

/-- The deallocation functions applied to character buffers: `js_free`, which
matches `js_pod_malloc` and is what `JS::UniqueTwoByteChars` uses, and the
`delete` expression. -/
inductive Deallocator
  | js_free
  | operatorDelete
  deriving DecidableEq, Repr

/-- A buffer of sixteen-bit units; `none` is a unit never written. -/
abbrev TwoByteChars := List (Option Nat)

/-- The memory the shim manages and the effects it has on the application.
Addresses are indices and are never reused, the contents of an object stay
readable after its deallocation, and the three logs grow by one entry per
`delete` of a bridge, per deallocation of a character buffer and per
`Dispose()` call. -/
structure World where
  bridges : List Bridge
  buffers : List TwoByteChars
  deletedBridges : List Nat
  freedChars : List (CharsPtr × Deallocator)
  disposed : List Nat
  deriving DecidableEq, Repr

/-- The world before the shim has allocated anything. -/
def World.empty : World :=
  { bridges := [], buffers := [], deletedBridges := [], freedChars := [], disposed := [] }

/-- Number of times the bridge at `fin` has been deleted. -/
def World.bridgeDeletes (w : World) (fin : Nat) : Nat := w.deletedBridges.count fin

/-- Number of times the character buffer `chars` has been deallocated. -/
def World.charsFrees (w : World) (chars : CharsPtr) : Nat :=
  (w.freedChars.map Prod.fst).count chars

/-- Number of `Dispose()` calls received by the resource `r`. -/
def World.disposeCalls (w : World) (r : Nat) : Nat := w.disposed.count r

/-- Store of one sixteen-bit unit, `data[i] = v`. -/
def World.writeChar16 (w : World) (p i v : Nat) : World :=
  match w.buffers[p]? with
  | some buf => { w with buffers := w.buffers.set p (buf.set i (some (v % 65536))) }
  | none => w

/-- Effect of `delete` on a bridge pointer (the destructor is trivial). -/
def World.deleteBridge (w : World) (fin : Nat) : World :=
  { w with deletedBridges := w.deletedBridges ++ [fin] }

/-- Effect of deallocating a character buffer with the given deallocation
function. -/
def World.freeChars (w : World) (chars : CharsPtr) (how : Deallocator) : World :=
  { w with freedChars := w.freedChars ++ [(chars, how)] }

/-! ## Resources -/

/-- A two-byte external resource: `length()` is the number of units of
`data()`. -/
structure ExternalStringResource where
  id : Nat
  data : List Nat
  deriving DecidableEq, Repr

/-- A one-byte external resource: `data()` is given by its bytes in memory,
`length()` is their number. -/
structure ExternalOneByteStringResource where
  id : Nat
  data : List Nat
  deriving DecidableEq, Repr

/-- The accessor `resource->length()` of a two-byte resource. -/
def ExternalStringResource.length (r : ExternalStringResource) : Nat := r.data.length

/-- The accessor `resource->length()` of a one-byte resource. -/
def ExternalOneByteStringResource.length (r : ExternalOneByteStringResource) : Nat :=
  r.data.length

/-! ## Engine primitives used by the external-string constructors -/

/-- An external string of the engine: the buffer pointer, the length and the
finalizer it was constructed over. -/
structure JSExternalString where
  chars : CharsPtr
  length : Nat
  fin : Nat
  deriving DecidableEq, Repr

/-- Modelled from the spec: the engine allocator `js_pod_malloc<char16_t>`,
declared in the engine headers. It yields `numElems` uninitialised units, or
null when the byte size overflows `size_t` or the host is out of memory
(`ok = false`). -/
def js_pod_malloc (ok : Bool) (numElems : Nat) : Option TwoByteChars :=
  if SIZE_MOD ≤ numElems * 2 then none
  else if ok then some (List.replicate numElems none)
  else none

/-- Modelled from the spec: the engine constructor `JS_NewExternalString`,
"allocate native string over a buffer + finalizer callback". It returns null
when the engine cannot construct the string (`ok = false`) and then has
registered nothing; the finalizer is only invoked when a constructed string is
collected. -/
def JS_NewExternalString (ok : Bool) (chars : CharsPtr) (length : Nat) (fin : Nat) :
    Option JSExternalString :=
  if ok then some { chars := chars, length := length, fin := fin } else none

/-! ## The finalizer bridge (`namespace internal`) -/

/-- The constructor `ExternalStringFinalizerBase<T>(resource)`: stores the
resource and installs `T::FinalizeExternalString`. -/
def ExternalStringFinalizerBase (kind : FinalizerKind) (resource : Nat) : Bridge :=
  { finalize := kind, resource_ := some resource }

/-- The call `mozilla::MakeUnique<T>(resource)`: a fresh bridge, or null when
the allocation fails. -/
def MakeUnique (w : World) (kind : FinalizerKind) (resource : Nat) (ok : Bool) :
    Option Nat × World :=
  if ok then
    (some w.bridges.length,
      { w with bridges := w.bridges ++ [ExternalStringFinalizerBase kind resource] })
  else (none, w)

/-- Destructor of a `UniquePtr` to a bridge at scope exit: deletes the bridge
it still owns, does nothing when it is null (after `release()`). -/
def UniquePtr.destroyBridge (w : World) (p : Option Nat) : World :=
  match p with
  | some fin => w.deleteBridge fin
  | none => w

/-- Destructor of a `JS::UniqueTwoByteChars` at scope exit: frees the buffer it
still owns, does nothing when it is null. -/
def UniquePtr.destroyChars (w : World) (p : Option Nat) : World :=
  match p with
  | some a => w.freeChars (.derived a) .js_free
  | none => w

/-- The method `ExternalStringFinalizerBase<T>::dispose()`. The result is
`none` when `this` is not the address of a bridge. -/
def ExternalStringFinalizerBase.dispose (w : World) (this : Nat) : Option World :=
  match w.bridges[this]? with
  | none => none
  | some b =>
    -- if (this->resource_ != NULL) { resource_->Dispose(); resource_ = nullptr; }
    let w1 : World :=
      match b.resource_ with
      | some r =>
        { w with
          disposed := w.disposed ++ [r]
          bridges := w.bridges.set this { b with resource_ := none } }
      | none => w
    -- delete this;
    some (w1.deleteBridge this)

/-- The callback `ExternalStringFinalizer::FinalizeExternalString(fin, chars)`
of the two-byte variant. -/
def ExternalStringFinalizer.FinalizeExternalString (w : World) (fin : Nat)
    (_chars : CharsPtr) : Option World :=
  ExternalStringFinalizerBase.dispose w fin

/-- The callback
`ExternalOneByteStringFinalizer::FinalizeExternalString(fin, chars)` of the
one-byte variant: `dispose()`, then `delete chars`. -/
def ExternalOneByteStringFinalizer.FinalizeExternalString (w : World) (fin : Nat)
    (chars : CharsPtr) : Option World :=
  match ExternalStringFinalizerBase.dispose w fin with
  | none => none
  | some w1 =>
    -- delete chars;
    some (w1.freeChars chars .operatorDelete)

/-- What the engine does when it collects an external string: it calls the
`finalize` slot of the registered bridge with the buffer pointer. -/
def finalizeString (w : World) (s : JSExternalString) : Option World :=
  match w.bridges[s.fin]? with
  | none => none
  | some b =>
    match b.finalize with
    | .twoByte => ExternalStringFinalizer.FinalizeExternalString w s.fin s.chars
    | .oneByte => ExternalOneByteStringFinalizer.FinalizeExternalString w s.fin s.chars

/-- The call `p.release()` of a `UniquePtr`: the raw pointer, and the pointer
left in the `UniquePtr` (null). -/
def UniquePtr.release (p : Option Nat) : Option Nat × Option Nat := (p, none)

/-- The function `String::NewExternalTwoByte(isolate, resource)`. -/
def NewExternalTwoByte (w : World) (resource : ExternalStringResource)
    (finOk strOk : Bool) : Option JSExternalString × World :=
  -- auto fin = mozilla::MakeUnique<internal::ExternalStringFinalizer>(resource);
  match MakeUnique w .twoByte resource.id finOk with
  | (none, w) => (none, w)
  | (some finAddr, w) =>
    -- JS_NewExternalString(cx, resource->data(), resource->length(), fin.release())
    let (_, fin) := UniquePtr.release (some finAddr)
    match JS_NewExternalString strOk (.borrowed resource.id) resource.length finAddr with
    | none => (none, UniquePtr.destroyBridge w fin)
    | some str => (some str, UniquePtr.destroyBridge w fin)

/-- The value of `oneByteData[i]` as a `char`, which is signed or unsigned
depending on the platform. -/
def readChar (charIsSigned : Bool) (byte : Nat) : Int :=
  if charIsSigned && decide (128 ≤ byte) then (byte : Int) - 256 else (byte : Int)

/-- The cast `(unsigned char) c`. -/
def toUnsignedChar (c : Int) : Nat := (c % 256).toNat

/-- The loop `for (size_t i = 0; i < length; ++i) data[i] = (unsigned char)
oneByteData[i];` with `remaining = length - i` iterations left. -/
def inflateLoop (charIsSigned : Bool) (oneByteData : List Nat) (data : Nat) :
    (remaining i : Nat) → World → World
  | 0, _, w => w
  | k + 1, i, w =>
    inflateLoop charIsSigned oneByteData data k (i + 1)
      (w.writeChar16 data i (toUnsignedChar (readChar charIsSigned (oneByteData.getD i 0))))

/-- The function `String::NewExternalOneByte(isolate, resource)`. -/
def NewExternalOneByte (w : World) (resource : ExternalOneByteStringResource)
    (charIsSigned finOk dataOk strOk : Bool) : Option JSExternalString × World :=
  -- auto fin = mozilla::MakeUnique<internal::ExternalOneByteStringFinalizer>(resource);
  match MakeUnique w .oneByte resource.id finOk with
  | (none, w) => (none, w)
  | (some finAddr, w) =>
    -- size_t length = resource->length();
    let length := resource.length % SIZE_MOD
    -- JS::UniqueTwoByteChars data(js_pod_malloc<char16_t>(length + 1));
    match js_pod_malloc dataOk ((length + 1) % SIZE_MOD) with
    | none => (none, UniquePtr.destroyBridge w (some finAddr))
    | some fresh =>
      let dataAddr := w.buffers.length
      let w := { w with buffers := w.buffers ++ [fresh] }
      -- for (...) data[i] = (unsigned char) oneByteData[i];
      let w := inflateLoop charIsSigned resource.data dataAddr length 0 w
      -- data[length] = 0;
      let w := w.writeChar16 dataAddr length 0
      -- JS_NewExternalString(cx, data.release(), length, fin.release())
      let (_, data) := UniquePtr.release (some dataAddr)
      let (_, fin) := UniquePtr.release (some finAddr)
      match JS_NewExternalString strOk (.derived dataAddr) length finAddr with
      | none => (none, UniquePtr.destroyBridge (UniquePtr.destroyChars w data) fin)
      | some str => (some str, UniquePtr.destroyBridge (UniquePtr.destroyChars w data) fin)

/-! ## Engine strings and the primitives of the string facade -/

/-- A string of the engine: a contiguous (flat) string, or a lazily
concatenated rope. -/
inductive JSString
  | flat (chars : List Nat)
  | rope (left right : JSString)
  deriving DecidableEq, Repr

/-- The sixteen-bit units a string denotes. -/
def JSString.chars : JSString → List Nat
  | .flat cs => cs
  | .rope l r => l.chars ++ r.chars

/-- A `Local<String>`: `none` is the empty (null) handle `Local<String>()`. -/
abbrev LocalString := Option JSString

/-- A `MaybeLocal<String>`: `none` is the failed result `MaybeLocal<String>()`. -/
abbrev MaybeLocalString := Option JSString

/-- The method `MaybeLocal<String>::FromMaybe(default_value)`. -/
def MaybeLocalString.FromMaybe (m : MaybeLocalString) (default_value : LocalString) :
    LocalString :=
  match m with
  | none => default_value
  | some v => some v

/-- The enumeration `v8::NewStringType`. -/
inductive NewStringType
  | kNormal
  | kInternalized
  deriving DecidableEq, Repr

/-- What the environment decides for the engine: its own maximum string
length `JSString::MAX_LENGTH`, and which of its allocation requests succeed. -/
structure Engine where
  maxLength : Nat
  inflateOk : Bool
  newStringOk : Bool
  concatOk : Bool
  flattenOk : Bool
  mallocOk : Bool
  deriving DecidableEq, Repr

deriving instance DecidableEq for Except

/-- Ways in which an execution leaves defined behaviour. -/
inductive Fault
  | assertionFailed
  | readOutOfBounds
  | nullDereference
  deriving DecidableEq, Repr

/-- The engine entry points the string constructors call, with their
arguments. -/
inductive EngineCall
  | UTF8CharsToNewTwoByteCharsZ (utf8 : List Nat)
  | JS_NewUCString (chars : List Nat) (length : Nat)
  | JS_ConcatStrings (left right : JSString)
  deriving DecidableEq, Repr

/-- The library function `strlen`: the number of bytes before the first NUL,
`none` when the readable memory holds no NUL. -/
def strlen : List Nat → Option Nat
  | [] => none
  | b :: rest => if b = 0 then some 0 else (strlen rest).map (· + 1)

/-- Modelled from the spec: whether `b` is a UTF-8 continuation byte
`10xxxxxx`, for the decoder below. -/
def isContinuation (b : Nat) : Bool := decide (0x80 ≤ b) && decide (b < 0xC0)

/-- Modelled from the spec: the decoding half of the "UTF-8 → UTF-16"
conversion of the encoding bridge (the engine's `js/CharacterEncoding.h` is not
part of this file). Well-formed UTF-8 is decoded to its code points; overlong
forms, surrogates, values above U+10FFFF and truncated sequences are
rejected. -/
def decodeUtf8 : List Nat → Option (List Nat)
  | [] => some []
  | b0 :: rest =>
    if b0 < 0x80 then (decodeUtf8 rest).map (b0 :: ·)
    else if b0 < 0xC0 then none
    else if b0 < 0xE0 then
      match rest with
      | b1 :: rest1 =>
        let cp := (b0 - 0xC0) * 0x40 + (b1 - 0x80)
        if isContinuation b1 && decide (0x80 ≤ cp) then
          (decodeUtf8 rest1).map (cp :: ·)
        else none
      | [] => none
    else if b0 < 0xF0 then
      match rest with
      | b1 :: b2 :: rest2 =>
        let cp := (b0 - 0xE0) * 0x1000 + (b1 - 0x80) * 0x40 + (b2 - 0x80)
        if isContinuation b1 && isContinuation b2 && decide (0x800 ≤ cp)
            && !(decide (0xD800 ≤ cp) && decide (cp ≤ 0xDFFF)) then
          (decodeUtf8 rest2).map (cp :: ·)
        else none
      | _ => none
    else if b0 < 0xF8 then
      match rest with
      | b1 :: b2 :: b3 :: rest3 =>
        let cp := (b0 - 0xF0) * 0x40000 + (b1 - 0x80) * 0x1000 + (b2 - 0x80) * 0x40
          + (b3 - 0x80)
        if isContinuation b1 && isContinuation b2 && isContinuation b3
            && decide (0x10000 ≤ cp) && decide (cp ≤ 0x10FFFF) then
          (decodeUtf8 rest3).map (cp :: ·)
        else none
      | _ => none
    else none

/-- Modelled from the spec: the UTF-16 code units of one code point, the
encoding half of the "UTF-8 → UTF-16" conversion. -/
def utf16Units (cp : Nat) : List Nat :=
  if cp < 0x10000 then [cp]
  else [0xD800 + (cp - 0x10000) / 0x400, 0xDC00 + (cp - 0x10000) % 0x400]

/-- Modelled from the spec: the engine function
`JS::UTF8CharsToNewTwoByteCharsZ(cx, utf8, &outlen)`, "convert to a freshly
allocated UTF-16 buffer plus its length". The buffer is null-terminated; the
result is null for malformed input or when the allocation fails. -/
def UTF8CharsToNewTwoByteCharsZ (eng : Engine) (utf8 : List Nat) : Option (List Nat × Nat) :=
  match decodeUtf8 utf8 with
  | none => none
  | some cps =>
    let units := cps.flatMap utf16Units
    if eng.inflateOk then some (units ++ [0], units.length) else none

/-- Modelled from the spec: the engine constructor
`JS_NewUCString(cx, chars, length)`, which adopts the buffer. It returns null
when `length` exceeds the engine's maximum string length or the allocation
fails. -/
def JS_NewUCString (eng : Engine) (chars : List Nat) (length : Nat) : Option JSString :=
  if eng.maxLength < length then none
  else if eng.newStringOk then some (.flat (chars.take length))
  else none

/-- Modelled from the spec: the engine function `JS_GetStringLength`, the
"native UTF-16 code-unit count of the string". -/
def JS_GetStringLength (s : JSString) : Nat := s.chars.length

/-- Modelled from the spec: the engine function `JS_FlattenString`, "forcing a
possibly-lazy string representation into one contiguous buffer". A flat string
is returned as it is; a rope needs an allocation, which may fail. -/
def JS_FlattenString (eng : Engine) (s : JSString) : Option (List Nat) :=
  match s with
  | .flat cs => some cs
  | .rope l r => if eng.flattenOk then some (l.chars ++ r.chars) else none

/-- Modelled from the spec: the engine function
`JS::GetDeflatedUTF8StringLength`, "compute the exact deflated byte length".
A surrogate pair takes four bytes, an unpaired surrogate the three bytes of
U+FFFD. -/
def GetDeflatedUTF8StringLength : List Nat → Nat
  | [] => 0
  | c :: rest =>
    if c < 0x80 then 1 + GetDeflatedUTF8StringLength rest
    else if c < 0x800 then 2 + GetDeflatedUTF8StringLength rest
    else if 0xD800 ≤ c ∧ c < 0xDC00 then
      match rest with
      | c2 :: rest2 =>
        if 0xDC00 ≤ c2 ∧ c2 ≤ 0xDFFF then 4 + GetDeflatedUTF8StringLength rest2
        else 3 + GetDeflatedUTF8StringLength (c2 :: rest2)
      | [] => 3
    else 3 + GetDeflatedUTF8StringLength rest

/-- Modelled from the spec: the engine function `JS_ConcatStrings`, "a new
string logically equal to left followed by right", or null when the result
would exceed the engine's maximum length or the allocation fails. -/
def JS_ConcatStrings (eng : Engine) (left right : JSString) : Option JSString :=
  if eng.maxLength < left.chars.length + right.chars.length then none
  else if eng.concatOk then some (.rope left right)
  else none

/-! ## The string facade -/

/-- The second half of `String::NewFromUtf8` (overload returning
`MaybeLocal<String>`), from `size_t twoByteLen;` on: `n` is the `length` the
first half arrived at, converted to the `size_t` that `JS::UTF8Chars` takes. -/
def NewFromUtf8.construct (eng : Engine) (data : List Nat) (n : Nat) :
    Except Fault (List EngineCall × MaybeLocalString) :=
  -- JS::UTF8Chars(data, length)
  if data.length < n then .error .readOutOfBounds
  else
    let utf8 := data.take n
    match UTF8CharsToNewTwoByteCharsZ eng utf8 with
    | none => .ok ([.UTF8CharsToNewTwoByteCharsZ utf8], none)
    | some (twoByteChars, twoByteLen) =>
      -- JS_NewUCString(cx, twoByteChars.release(), twoByteLen)
      match JS_NewUCString eng twoByteChars twoByteLen with
      | none =>
        .ok ([.UTF8CharsToNewTwoByteCharsZ utf8,
              .JS_NewUCString twoByteChars twoByteLen], none)
      | some str =>
        .ok ([.UTF8CharsToNewTwoByteCharsZ utf8,
              .JS_NewUCString twoByteChars twoByteLen], some str)

/-- The function `String::NewFromUtf8(isolate, data, type, length)`, overload
returning `MaybeLocal<String>`. `data` lists the bytes readable at the
pointer, `kMaxLength` is `v8::String::kMaxLength`. The result carries the
engine calls made, in order. -/
def NewFromUtf8 (kMaxLength : Int) (eng : Engine) (data : List Nat) (type : NewStringType)
    (length : Int) : Except Fault (List EngineCall × MaybeLocalString) :=
  -- assert(type == v8::NewStringType::kNormal);
  if type ≠ .kNormal then .error .assertionFailed
  -- if (length > v8::String::kMaxLength) return MaybeLocal<String>();
  else if length > kMaxLength then .ok ([], none)
  else
    -- if (length < 0) length = strlen(data);
    let computed : Option Int :=
      if length < 0 then (strlen data).map (fun n => toInt32 (Int.ofNat n)) else some length
    match computed with
    | none => .error .readOutOfBounds
    | some length => NewFromUtf8.construct eng data (toSizeT length)

/-- The function `String::NewFromUtf8`, overload returning `Local<String>`:
the other overload followed by `.FromMaybe(Local<String>())`. -/
def NewFromUtf8Local (kMaxLength : Int) (eng : Engine) (data : List Nat)
    (type : NewStringType) (length : Int) : Except Fault (List EngineCall × LocalString) :=
  match NewFromUtf8 kMaxLength eng data type length with
  | .error f => .error f
  | .ok (calls, m) => .ok (calls, m.FromMaybe none)

/-- The function `String::Empty(isolate)`: `NewFromUtf8(isolate, "")` with the
default arguments `kNormalString` and `length = -1`. -/
def Empty (kMaxLength : Int) (eng : Engine) : Except Fault (List EngineCall × LocalString) :=
  NewFromUtf8Local kMaxLength eng [0] .kNormal (-1)

/-- The function `String::Concat(left, right)` on two valid handles. -/
def Concat (kMaxLength : Int) (eng : Engine) (left right : JSString) :
    Except Fault (List EngineCall × LocalString) :=
  match JS_ConcatStrings eng left right with
  | none =>
    -- if (!result) return Empty(isolate);
    match Empty kMaxLength eng with
    | .error f => .error f
    | .ok (calls, h) => .ok (.JS_ConcatStrings left right :: calls, h)
  | some result => .ok ([.JS_ConcatStrings left right], some result)

/-- The method `String::Utf8Length()`. -/
def Utf8Length (eng : Engine) (this : JSString) : Int :=
  match JS_FlattenString eng this with
  | none => 0
  | some flat => toInt32 (GetDeflatedUTF8StringLength flat)

/-! ## The flattening accessor -/

/-- Modelled from the spec: the engine function
`JS_CopyStringChars(cx, dest, str)`. It linearises the string, returning
`false` when that fails, and otherwise copies every unit to `dest.begin()`,
which is a store through the destination pointer for each unit. -/
def JS_CopyStringChars (eng : Engine) (dest : Option TwoByteChars) (str : JSString) :
    Except Fault (Bool × Option TwoByteChars) :=
  match JS_FlattenString eng str with
  | none => .ok (false, dest)
  | some linear =>
    match dest with
    | none => if linear = [] then .ok (true, none) else .error .nullDereference
    | some buf => .ok (true, some (linear.map some ++ buf.drop linear.length))

/-- The function `internal::GetFlatString(cx, source, length)`. The first
component is the returned buffer (`none` is `nullptr`), the second what was
stored to `*length` when `length` is not null. -/
def GetFlatString (eng : Engine) (source : JSString) (lengthNonNull : Bool) :
    Except Fault (Option TwoByteChars × Option Nat) :=
  -- size_t len = JS_GetStringLength(sourceStr);
  let len := JS_GetStringLength source % SIZE_MOD
  -- if (length) *length = len;
  let stored := if lengthNonNull then some len else none
  -- JS::UniqueTwoByteChars buffer(js_pod_malloc<char16_t>(len + 1));
  let buffer := js_pod_malloc eng.mallocOk ((len + 1) % SIZE_MOD)
  -- if (!JS_CopyStringChars(cx, dest, sourceStr)) return nullptr;
  match JS_CopyStringChars eng buffer source with
  | .error f => .error f
  | .ok (false, _) => .ok (none, stored)
  | .ok (true, buffer) =>
    -- buffer[len] = '\0';
    match buffer with
    | none => .error .nullDereference
    | some buf => .ok (some (buf.set len (some 0)), stored)

/-- The fields of a `String::Value`. -/
structure StringValue where
  str_ : Option TwoByteChars
  length_ : Nat
  deriving DecidableEq, Repr

/-- The constructor `String::Value::Value(obj)` for an `obj` that is a string
(`ToString` then returns it unchanged). -/
def StringValue.Value (eng : Engine) (obj : JSString) : Except Fault StringValue :=
  -- : str_(nullptr), length_(0)
  match GetFlatString eng obj true with
  | .error f => .error f
  | .ok (buffer, stored) =>
    let length_ := stored.getD 0
    match buffer with
    | some buf => .ok { str_ := some buf, length_ := length_ }
    | none => .ok { str_ := none, length_ := 0 }


/-! ## Valid UTF-8 -/

/-- Whether `cp` is a Unicode scalar value: at most U+10FFFF and not a
surrogate. -/
def isScalarValue (cp : Nat) : Bool :=
  decide (cp < 0xD800) || (decide (0xE000 ≤ cp) && decide (cp ≤ 0x10FFFF))

/-- The UTF-8 encoding of one scalar value, as the Unicode Standard defines
it. A byte sequence is valid UTF-8 when it is the encoding of a list of scalar
values. -/
def encodeUtf8Char (cp : Nat) : List Nat :=
  if cp < 0x80 then [cp]
  else if cp < 0x800 then [0xC0 + cp / 0x40, 0x80 + cp % 0x40]
  else if cp < 0x10000 then [0xE0 + cp / 0x1000, 0x80 + cp / 0x40 % 0x40, 0x80 + cp % 0x40]
  else [0xF0 + cp / 0x40000, 0x80 + cp / 0x1000 % 0x40, 0x80 + cp / 0x40 % 0x40,
        0x80 + cp % 0x40]

/-! ## Parameter values used in examples -/

/-- An instance of `v8::String::kMaxLength`, `(1 << 28) - 16`. -/
def kMaxLengthV8 : Int := 268435440

/-- An engine whose maximum string length is `2 ^ 28 - 1` and whose
allocations all succeed. -/
def engineOk : Engine :=
  { maxLength := 268435455, inflateOk := true, newStringOk := true, concatOk := true,
    flattenOk := true, mallocOk := true }

/-- The UTF-8 bytes of the text U+0068 U+00E9 U+20AC U+1F600, with sequences
of one to four bytes. -/
def sampleUtf8 : List Nat := [0x68, 0xC3, 0xA9, 0xE2, 0x82, 0xAC, 0xF0, 0x9F, 0x98, 0x80]


/-! # Theorems -/

/-! ## The one-byte inflation loop -/

theorem cast_byte (sgn : Bool) (b : Nat) (hb : b < 256) :
    toUnsignedChar (readChar sgn b) % 65536 = b := by
  unfold toUnsignedChar readChar
  split <;> omega

theorem writeChar16_fields (w : World) (p i v : Nat) :
    (w.writeChar16 p i v).bridges = w.bridges ∧
    (w.writeChar16 p i v).deletedBridges = w.deletedBridges ∧
    (w.writeChar16 p i v).freedChars = w.freedChars ∧
    (w.writeChar16 p i v).disposed = w.disposed ∧
    (w.writeChar16 p i v).buffers.length = w.buffers.length := by
  unfold World.writeChar16
  split <;> simp

theorem writeChar16_buffer (w : World) (p i v : Nat) (buf : TwoByteChars)
    (h : w.buffers[p]? = some buf) :
    (w.writeChar16 p i v).buffers[p]? = some (buf.set i (some (v % 65536))) := by
  unfold World.writeChar16
  rw [h]
  have hp : p < w.buffers.length := by
    rcases Nat.lt_or_ge p w.buffers.length with h1 | h1
    · exact h1
    · rw [List.getElem?_eq_none h1] at h; cases h
  simp [List.getElem?_set_self, hp]

theorem inflateLoop_fields (sgn : Bool) (data : List Nat) (p : Nat) :
    ∀ (k i : Nat) (w : World),
      (inflateLoop sgn data p k i w).bridges = w.bridges ∧
      (inflateLoop sgn data p k i w).deletedBridges = w.deletedBridges ∧
      (inflateLoop sgn data p k i w).freedChars = w.freedChars ∧
      (inflateLoop sgn data p k i w).disposed = w.disposed ∧
      (inflateLoop sgn data p k i w).buffers.length = w.buffers.length := by
  intro k
  induction k with
  | zero => intro i w; simp [inflateLoop]
  | succ k ih =>
    intro i w
    simp only [inflateLoop]
    obtain ⟨h1, h2, h3, h4, h5⟩ := ih (i + 1) (w.writeChar16 p i
      (toUnsignedChar (readChar sgn (data.getD i 0))))
    obtain ⟨g1, g2, g3, g4, g5⟩ := writeChar16_fields w p i
      (toUnsignedChar (readChar sgn (data.getD i 0)))
    exact ⟨h1.trans g1, h2.trans g2, h3.trans g3, h4.trans g4, h5.trans g5⟩

theorem inflateLoop_buffer (sgn : Bool) (data : List Nat) (p : Nat)
    (hbytes : ∀ b ∈ data, b < 256) :
    ∀ (k i : Nat) (w : World) (buf : TwoByteChars),
      w.buffers[p]? = some buf → i + k ≤ data.length →
      ∃ buf1, (inflateLoop sgn data p k i w).buffers[p]? = some buf1 ∧
        buf1.length = buf.length ∧
        ∀ j, buf1[j]? =
          if i ≤ j ∧ j < i + k ∧ j < buf.length then some (some (data.getD j 0)) else buf[j]? := by
  intro k
  induction k with
  | zero =>
    intro i w buf h _
    refine ⟨buf, by simpa [inflateLoop] using h, rfl, ?_⟩
    intro j
    have : ¬ (i ≤ j ∧ j < i + 0 ∧ j < buf.length) := by omega
    rw [if_neg this]
  | succ k ih =>
    intro i w buf h hik
    simp only [inflateLoop]
    have hw := writeChar16_buffer w p i (toUnsignedChar (readChar sgn (data.getD i 0))) buf h
    have hi : i < data.length := by omega
    have hb : data.getD i 0 < 256 := by
      have : data.getD i 0 = data[i] := by simp [List.getD, List.getElem?_eq_getElem hi]
      rw [this]; exact hbytes _ (List.getElem_mem _)
    rw [cast_byte sgn _ hb] at hw
    obtain ⟨buf1, e1, l1, g1⟩ := ih (i + 1) _ _ hw (by omega)
    refine ⟨buf1, e1, by simpa using l1, ?_⟩
    intro j
    rw [g1 j]
    simp only [List.length_set]
    by_cases hji : j = i
    · subst hji
      by_cases hl : j < buf.length
      · have c1 : ¬ (j + 1 ≤ j ∧ j < j + 1 + k ∧ j < buf.length) := by omega
        have c2 : (j ≤ j ∧ j < j + (k + 1) ∧ j < buf.length) := by omega
        rw [if_neg c1, if_pos c2, List.getElem?_set_self hl]
      · have c1 : ¬ (j + 1 ≤ j ∧ j < j + 1 + k ∧ j < buf.length) := by omega
        have c2 : ¬ (j ≤ j ∧ j < j + (k + 1) ∧ j < buf.length) := by omega
        rw [if_neg c1, if_neg c2, List.getElem?_eq_none (by simp; omega),
          List.getElem?_eq_none (by omega)]
    · have hne : i ≠ j := fun h => hji h.symm
      by_cases c : (i + 1 ≤ j ∧ j < i + 1 + k ∧ j < buf.length)
      · have c2 : (i ≤ j ∧ j < i + (k + 1) ∧ j < buf.length) := by omega
        simp [c, c2]
      · have c2 : ¬ (i ≤ j ∧ j < i + (k + 1) ∧ j < buf.length) := by omega
        simp only [c, c2, if_false]
        rw [List.getElem?_set_ne hne]

/-! ## The disposal protocol -/

theorem dispose_armed (w : World) (this : Nat) (b : Bridge) (r : Nat)
    (hb : w.bridges[this]? = some b) (hr : b.resource_ = some r) :
    ExternalStringFinalizerBase.dispose w this =
      some { w with
        disposed := w.disposed ++ [r]
        bridges := w.bridges.set this { b with resource_ := none }
        deletedBridges := w.deletedBridges ++ [this] } := by
  unfold ExternalStringFinalizerBase.dispose
  rw [hb]
  simp [hr, World.deleteBridge]

theorem deflated_cons (c : Nat) (rest : List Nat) :
    GetDeflatedUTF8StringLength (c :: rest) =
      if c < 0x80 then 1 + GetDeflatedUTF8StringLength rest
      else if c < 0x800 then 2 + GetDeflatedUTF8StringLength rest
      else if 0xD800 ≤ c ∧ c < 0xDC00 then
        match rest with
        | c2 :: rest2 =>
          if 0xDC00 ≤ c2 ∧ c2 ≤ 0xDFFF then 4 + GetDeflatedUTF8StringLength rest2
          else 3 + GetDeflatedUTF8StringLength (c2 :: rest2)
        | [] => 3
      else 3 + GetDeflatedUTF8StringLength rest := by
  cases rest <;> rfl

theorem decode_cons (b0 : Nat) (rest : List Nat) :
    decodeUtf8 (b0 :: rest) =
    if b0 < 0x80 then (decodeUtf8 rest).map (b0 :: ·)
    else if b0 < 0xC0 then none
    else if b0 < 0xE0 then
      match rest with
      | b1 :: rest1 =>
        let cp := (b0 - 0xC0) * 0x40 + (b1 - 0x80)
        if isContinuation b1 && decide (0x80 ≤ cp) then
          (decodeUtf8 rest1).map (cp :: ·)
        else none
      | [] => none
    else if b0 < 0xF0 then
      match rest with
      | b1 :: b2 :: rest2 =>
        let cp := (b0 - 0xE0) * 0x1000 + (b1 - 0x80) * 0x40 + (b2 - 0x80)
        if isContinuation b1 && isContinuation b2 && decide (0x800 ≤ cp)
            && !(decide (0xD800 ≤ cp) && decide (cp ≤ 0xDFFF)) then
          (decodeUtf8 rest2).map (cp :: ·)
        else none
      | _ => none
    else if b0 < 0xF8 then
      match rest with
      | b1 :: b2 :: b3 :: rest3 =>
        let cp := (b0 - 0xF0) * 0x40000 + (b1 - 0x80) * 0x1000 + (b2 - 0x80) * 0x40
          + (b3 - 0x80)
        if isContinuation b1 && isContinuation b2 && isContinuation b3
            && decide (0x10000 ≤ cp) && decide (cp ≤ 0x10FFFF) then
          (decodeUtf8 rest3).map (cp :: ·)
        else none
      | _ => none
    else none := by
  rcases rest with _ | ⟨b1, _ | ⟨b2, _ | ⟨b3, r3⟩⟩⟩ <;> rfl

theorem deflated_one (c : Nat) (rest : List Nat) (h : c < 0x80) :
    GetDeflatedUTF8StringLength (utf16Units c ++ rest) = 1 + GetDeflatedUTF8StringLength rest := by
  have h1 : c < 0x10000 := by omega
  simp only [utf16Units, h1, if_true, List.singleton_append]
  rw [deflated_cons, if_pos h]

theorem deflated_two (c : Nat) (rest : List Nat) (h0 : 0x80 ≤ c) (h : c < 0x800) :
    GetDeflatedUTF8StringLength (utf16Units c ++ rest) = 2 + GetDeflatedUTF8StringLength rest := by
  have h1 : c < 0x10000 := by omega
  have h2 : ¬ c < 0x80 := by omega
  simp only [utf16Units, h1, if_true, List.singleton_append]
  rw [deflated_cons, if_neg h2, if_pos h]

theorem deflated_three (c : Nat) (rest : List Nat) (h0 : 0x800 ≤ c) (h : c < 0x10000)
    (hs : ¬ (0xD800 ≤ c ∧ c ≤ 0xDFFF)) :
    GetDeflatedUTF8StringLength (utf16Units c ++ rest) = 3 + GetDeflatedUTF8StringLength rest := by
  have h2 : ¬ c < 0x80 := by omega
  have h3 : ¬ c < 0x800 := by omega
  have h4 : ¬ (0xD800 ≤ c ∧ c < 0xDC00) := by omega
  simp only [utf16Units, h, if_true, List.singleton_append]
  rw [deflated_cons, if_neg h2, if_neg h3, if_neg h4]

theorem deflated_four (c : Nat) (rest : List Nat) (h0 : 0x10000 ≤ c) (h : c ≤ 0x10FFFF) :
    GetDeflatedUTF8StringLength (utf16Units c ++ rest) = 4 + GetDeflatedUTF8StringLength rest := by
  have h1 : ¬ c < 0x10000 := by omega
  have a2 : ¬ (0xD800 + (c - 0x10000) / 0x400 < 0x80) := by omega
  have a3 : ¬ (0xD800 + (c - 0x10000) / 0x400 < 0x800) := by omega
  have a4 : (0xD800 ≤ 0xD800 + (c - 0x10000) / 0x400 ∧ 0xD800 + (c - 0x10000) / 0x400 < 0xDC00) := by
    omega
  have a5 : (0xDC00 ≤ 0xDC00 + (c - 0x10000) % 0x400 ∧ 0xDC00 + (c - 0x10000) % 0x400 ≤ 0xDFFF) := by
    omega
  simp only [utf16Units, h1, if_false, List.cons_append, List.nil_append]
  rw [deflated_cons, if_neg a2, if_neg a3, if_pos a4]
  simp only
  rw [if_pos a5]

theorem isContinuation_iff (b : Nat) : isContinuation b = true ↔ 0x80 ≤ b ∧ b < 0xC0 := by
  simp [isContinuation]

theorem decodeUtf8_deflated : ∀ (n : Nat) (s cps : List Nat), s.length = n →
    decodeUtf8 s = some cps →
    GetDeflatedUTF8StringLength (cps.flatMap utf16Units) = s.length := by
  intro n
  induction n using Nat.strong_induction_on with
  | _ n ih =>
    intro s cps hn hd
    match s, hd with
    | [], hd =>
      have : cps = [] := by
        have h0 : decodeUtf8 [] = some [] := rfl
        rw [h0] at hd
        exact (Option.some.inj hd).symm
      subst this
      rfl
    | b0 :: rest, hd =>
      rw [decode_cons] at hd
      simp only [List.length_cons] at hn
      split at hd
      · -- one byte
        rename_i h1
        simp only [Option.map_eq_some'] at hd
        obtain ⟨tl, htl, rfl⟩ := hd
        have := ih rest.length (by omega) rest tl rfl htl
        simp only [List.flatMap_cons, List.length_cons]
        rw [deflated_one _ _ h1, this]; omega
      · split at hd
        · cases hd
        · split at hd
          · -- two bytes
            rename_i h1 h2 h3
            match rest, hd with
            | [], hd => cases hd
            | b1 :: rest1, hd =>
              simp only at hd
              split at hd
              · rename_i hc
                simp only [Bool.and_eq_true, isContinuation_iff, decide_eq_true_eq] at hc
                simp only [Option.map_eq_some'] at hd
                obtain ⟨tl, htl, rfl⟩ := hd
                simp only [List.length_cons] at hn
                have := ih rest1.length (by omega) rest1 tl rfl htl
                simp only [List.flatMap_cons, List.length_cons]
                rw [deflated_two _ _ hc.2 (by omega), this]; omega
              · cases hd
          · split at hd
            · -- three bytes
              rename_i h1 h2 h3 h4
              match rest, hd with
              | [], hd => cases hd
              | [_], hd => cases hd
              | b1 :: b2 :: rest2, hd =>
                simp only at hd
                split at hd
                · rename_i hc
                  simp only [Bool.and_eq_true, isContinuation_iff, decide_eq_true_eq,
                    Bool.not_eq_true', Bool.and_eq_false_imp, decide_eq_false_iff_not] at hc
                  simp only [Option.map_eq_some'] at hd
                  obtain ⟨tl, htl, rfl⟩ := hd
                  simp only [List.length_cons] at hn
                  have := ih rest2.length (by omega) rest2 tl rfl htl
                  simp only [List.flatMap_cons, List.length_cons]
                  rw [deflated_three _ _ (by omega) (by omega) (by omega), this]; omega
                · cases hd
            · split at hd
              · -- four bytes
                rename_i h1 h2 h3 h4 h5
                match rest, hd with
                | [], hd => cases hd
                | [_], hd => cases hd
                | [_, _], hd => cases hd
                | b1 :: b2 :: b3 :: rest3, hd =>
                  simp only at hd
                  split at hd
                  · rename_i hc
                    simp only [Bool.and_eq_true, isContinuation_iff, decide_eq_true_eq] at hc
                    simp only [Option.map_eq_some'] at hd
                    obtain ⟨tl, htl, rfl⟩ := hd
                    simp only [List.length_cons] at hn
                    have := ih rest3.length (by omega) rest3 tl rfl htl
                    simp only [List.flatMap_cons, List.length_cons]
                    rw [deflated_four _ _ (by omega) (by omega), this]; omega
                  · cases hd
              · cases hd


/-! ## Lengths in `NewFromUtf8` -/

theorem toSizeT_natCast (n : Nat) (h : n < 18446744073709551616) : toSizeT (n : Int) = n := by
  unfold toSizeT
  omega

theorem toInt32_natCast (n : Nat) (h : n < 2147483648) : toInt32 (n : Int) = n := by
  unfold toInt32
  split <;> omega

theorem strlen_spec : ∀ (data : List Nat) (n : Nat), strlen data = some n →
    data[n]? = some 0 ∧ ∀ b ∈ data.take n, b ≠ 0 := by
  intro data
  induction data with
  | nil => intro n h; simp [strlen] at h
  | cons b rest ih =>
    intro n h
    simp only [strlen] at h
    split at h
    · rename_i hb
      cases h
      simp [hb]
    · rename_i hb
      simp only [Option.map_eq_some'] at h
      obtain ⟨m, hm, rfl⟩ := h
      obtain ⟨h1, h2⟩ := ih m hm
      refine ⟨by simpa using h1, ?_⟩
      intro x hx
      simp only [List.take_succ_cons, List.mem_cons] at hx
      rcases hx with rfl | hx
      · exact hb
      · exact h2 x hx

theorem strlen_lt : ∀ (data : List Nat) (n : Nat), strlen data = some n → n < data.length := by
  intro data n h
  have := (strlen_spec data n h).1
  rcases Nat.lt_or_ge n data.length with h1 | h1
  · exact h1
  · rw [List.getElem?_eq_none h1] at this; cases this

/-- The result of `NewFromUtf8` once the length has passed the `kMaxLength`
test and is known: the conversion of the first `n` bytes, handed to the string
constructor. -/
theorem NewFromUtf8_after_strlen (kMaxLength : Int) (eng : Engine) (data : List Nat)
    (length : Int) (n : Nat) (hk : 0 ≤ kMaxLength) (hl : length < 0) (hn : strlen data = some n)
    (h31 : n < 2147483648) :
    ∃ calls, NewFromUtf8 kMaxLength eng data .kNormal length =
        .ok (calls,
          match UTF8CharsToNewTwoByteCharsZ eng (data.take n) with
          | none => none
          | some (chars, len) => JS_NewUCString eng chars len) ∧
      calls.head? = some (.UTF8CharsToNewTwoByteCharsZ (data.take n)) := by
  have hlt := strlen_lt data n hn
  have h1 : ¬ length > kMaxLength := by omega
  have h2 : toSizeT (toInt32 (Int.ofNat n)) = n := by
    rw [Int.ofNat_eq_coe, toInt32_natCast n h31, toSizeT_natCast n (by omega)]
  have h3 : ¬ data.length < n := by omega
  unfold NewFromUtf8
  rw [if_neg (by simp), if_neg h1]
  rw [if_pos hl, hn]
  simp only [Option.map_some']
  rw [h2]
  unfold NewFromUtf8.construct
  rw [if_neg h3]
  simp only []
  cases hc : UTF8CharsToNewTwoByteCharsZ eng (List.take n data) with
  | none => exact ⟨_, rfl, rfl⟩
  | some p =>
    obtain ⟨chars, len⟩ := p
    cases hs : JS_NewUCString eng chars len with
    | none => exact ⟨[.UTF8CharsToNewTwoByteCharsZ (data.take n),
        .JS_NewUCString chars len], by simp only [hs], rfl⟩
    | some str => exact ⟨[.UTF8CharsToNewTwoByteCharsZ (data.take n),
        .JS_NewUCString chars len], by simp only [hs], rfl⟩


theorem strlen_replicate (a : Nat) (ha : a ≠ 0) : ∀ n : Nat,
    strlen (List.replicate n a ++ [0]) = some n := by
  intro n
  induction n with
  | zero => rfl
  | succ n ih =>
    rw [List.replicate_succ, List.cons_append, strlen, if_neg ha, ih]
    rfl

theorem decodeUtf8_replicate (a : Nat) (ha : a < 0x80) : ∀ n : Nat,
    decodeUtf8 (List.replicate n a) = some (List.replicate n a) := by
  intro n
  induction n with
  | zero => rfl
  | succ n ih =>
    rw [List.replicate_succ, decode_cons, if_pos ha, ih]
    rfl

theorem flatMap_utf16Units_replicate (a : Nat) (ha : a < 0x10000) : ∀ n : Nat,
    (List.replicate n a).flatMap utf16Units = List.replicate n a := by
  intro n
  induction n with
  | zero => rfl
  | succ n ih =>
    rw [List.replicate_succ, List.flatMap_cons, ih]
    simp [utf16Units, ha]

theorem take_replicate_append (a : Nat) (n : Nat) (l : List Nat) :
    (List.replicate n a ++ l).take n = List.replicate n a := by
  rw [List.take_append_of_le_length (by simp)]
  rw [List.take_of_length_le (by simp)]

/-- A null-terminated run of `n` equal ASCII bytes passed with `length = -1`
is constructed whenever the engine accepts `n` units, whatever `kMaxLength`
is. -/
theorem NewFromUtf8_ascii_run (kMaxLength : Int) (eng : Engine) (a n : Nat)
    (hk : 0 ≤ kMaxLength) (ha0 : a ≠ 0) (ha : a < 0x80) (h31 : n < 2147483648)
    (hi : eng.inflateOk = true) (hs : eng.newStringOk = true) (hm : n ≤ eng.maxLength) :
    ∃ calls, NewFromUtf8 kMaxLength eng (List.replicate n a ++ [0]) .kNormal (-1) =
      .ok (calls, some (.flat (List.replicate n a))) := by
  obtain ⟨calls, h, _⟩ := NewFromUtf8_after_strlen kMaxLength eng
    (List.replicate n a ++ [0]) (-1) n hk (by decide) (strlen_replicate a ha0 n) h31
  refine ⟨calls, ?_⟩
  rw [h, take_replicate_append]
  have hconv : UTF8CharsToNewTwoByteCharsZ eng (List.replicate n a)
      = some (List.replicate n a ++ [0], n) := by
    unfold UTF8CharsToNewTwoByteCharsZ
    rw [decodeUtf8_replicate a ha n]
    simp only [flatMap_utf16Units_replicate a (by omega) n, hi, if_true, List.length_replicate]
  rw [hconv]
  simp only [JS_NewUCString, hs, if_true, take_replicate_append]
  rw [if_neg (by omega)]


/-! ## Construction from valid UTF-8 -/

theorem decodeUtf8_encodeUtf8Char (cp : Nat) (rest : List Nat) (h : isScalarValue cp = true) :
    decodeUtf8 (encodeUtf8Char cp ++ rest) = (decodeUtf8 rest).map (cp :: ·) := by
  simp only [isScalarValue, Bool.or_eq_true, Bool.and_eq_true, decide_eq_true_eq] at h
  unfold encodeUtf8Char
  by_cases h1 : cp < 0x80
  · rw [if_pos h1, List.singleton_append, decode_cons, if_pos h1]
  · rw [if_neg h1]
    by_cases h2 : cp < 0x800
    · rw [if_pos h2, List.cons_append, List.singleton_append, decode_cons,
        if_neg (by omega), if_neg (by omega), if_pos (by omega)]
      have hc : (isContinuation (0x80 + cp % 0x40) && decide (0x80 ≤ cp)) = true := by
        simp only [Bool.and_eq_true, isContinuation_iff, decide_eq_true_eq]
        omega
      have he : (0xC0 + cp / 0x40 - 0xC0) * 0x40 + (0x80 + cp % 0x40 - 0x80) = cp := by omega
      simp only [he, hc, if_true]
    · rw [if_neg h2]
      by_cases h3 : cp < 0x10000
      · rw [if_pos h3]
        simp only [List.cons_append, List.nil_append]
        rw [decode_cons, if_neg (by omega), if_neg (by omega), if_neg (by omega),
          if_pos (by omega)]
        have he : (0xE0 + cp / 0x1000 - 0xE0) * 0x1000 + (0x80 + cp / 0x40 % 0x40 - 0x80) * 0x40
            + (0x80 + cp % 0x40 - 0x80) = cp := by omega
        have hc : (isContinuation (0x80 + cp / 0x40 % 0x40) && isContinuation (0x80 + cp % 0x40)
            && decide (0x800 ≤ cp) && !(decide (0xD800 ≤ cp) && decide (cp ≤ 0xDFFF))) = true := by
          simp only [Bool.and_eq_true, isContinuation_iff, decide_eq_true_eq, Bool.not_eq_true',
            Bool.and_eq_false_imp, decide_eq_false_iff_not]
          omega
        simp only [he, hc, if_true]
      · rw [if_neg h3]
        simp only [List.cons_append, List.nil_append]
        rw [decode_cons, if_neg (by omega), if_neg (by omega), if_neg (by omega),
          if_neg (by omega), if_pos (by omega)]
        have he : (0xF0 + cp / 0x40000 - 0xF0) * 0x40000
            + (0x80 + cp / 0x1000 % 0x40 - 0x80) * 0x1000
            + (0x80 + cp / 0x40 % 0x40 - 0x80) * 0x40 + (0x80 + cp % 0x40 - 0x80) = cp := by omega
        have hc : (isContinuation (0x80 + cp / 0x1000 % 0x40)
            && isContinuation (0x80 + cp / 0x40 % 0x40) && isContinuation (0x80 + cp % 0x40)
            && decide (0x10000 ≤ cp) && decide (cp ≤ 0x10FFFF)) = true := by
          simp only [Bool.and_eq_true, isContinuation_iff, decide_eq_true_eq]
          omega
        simp only [he, hc, if_true]

theorem decodeUtf8_encode (cps : List Nat) (h : ∀ cp ∈ cps, isScalarValue cp = true) :
    decodeUtf8 (cps.flatMap encodeUtf8Char) = some cps := by
  induction cps with
  | nil => rfl
  | cons cp rest ih =>
    rw [List.flatMap_cons, decodeUtf8_encodeUtf8Char cp _ (h cp (List.mem_cons_self _ _)),
      ih (fun c hc => h c (List.mem_cons_of_mem _ hc))]
    rfl

/-- Construction succeeds on every valid UTF-8 input: the encoding of scalar
values, passed with its byte length, is turned into the flat string of their
UTF-16 units whenever the length is within `kMaxLength`, the engine accepts
the number of units and its two allocations succeed. -/
theorem NewFromUtf8_valid_utf8 (kMaxLength : Int) (eng : Engine) (cps : List Nat)
    (hv : ∀ cp ∈ cps, isScalarValue cp = true)
    (hlen : Int.ofNat (cps.flatMap encodeUtf8Char).length ≤ kMaxLength)
    (hk : kMaxLength < 2147483648)
    (hi : eng.inflateOk = true) (hs : eng.newStringOk = true)
    (hm : (cps.flatMap utf16Units).length ≤ eng.maxLength) :
    NewFromUtf8 kMaxLength eng (cps.flatMap encodeUtf8Char) .kNormal
        (Int.ofNat (cps.flatMap encodeUtf8Char).length)
      = .ok ([.UTF8CharsToNewTwoByteCharsZ (cps.flatMap encodeUtf8Char),
              .JS_NewUCString (cps.flatMap utf16Units ++ [0]) (cps.flatMap utf16Units).length],
          some (.flat (cps.flatMap utf16Units))) := by
  have h2 : toSizeT (Int.ofNat (cps.flatMap encodeUtf8Char).length)
      = (cps.flatMap encodeUtf8Char).length :=
    toSizeT_natCast _ (by
      have : ((cps.flatMap encodeUtf8Char).length : Int) ≤ kMaxLength := hlen
      omega)
  have hneg : ¬ Int.ofNat (cps.flatMap encodeUtf8Char).length < 0 :=
    Int.not_lt.mpr (Int.ofNat_zero_le _)
  unfold NewFromUtf8
  rw [if_neg (by simp), if_neg (by omega), if_neg hneg]
  dsimp only
  rw [h2]
  unfold NewFromUtf8.construct
  rw [if_neg (by omega), List.take_length]
  unfold UTF8CharsToNewTwoByteCharsZ
  dsimp only
  rw [decodeUtf8_encode cps hv]
  simp only [hi, if_true, JS_NewUCString, hs]
  rw [if_neg (by omega), List.take_left' rfl]

/-! ## Claims on the finalizer bridge and the external-string constructors -/

/-- The result of `NewExternalOneByte` once the bridge and the buffer are
allocated: the outcome of the engine constructor, and the world in which the
loop and the terminating store have run; nothing is released afterwards,
whatever the engine answers. -/
theorem NewExternalOneByte_allocated (w : World) (r : ExternalOneByteStringResource)
    (charIsSigned dataOk strOk : Bool)
    (hlen : r.data.length + 1 < SIZE_MOD)
    (halloc : (js_pod_malloc dataOk ((r.data.length + 1) % SIZE_MOD)).isSome = true) :
    NewExternalOneByte w r charIsSigned true dataOk strOk =
      (JS_NewExternalString strOk (.derived w.buffers.length) r.data.length w.bridges.length,
        (inflateLoop charIsSigned r.data w.buffers.length r.data.length 0
          { w with
            bridges := w.bridges ++ [ExternalStringFinalizerBase .oneByte r.id]
            buffers := w.buffers ++ [List.replicate (r.data.length + 1) none] }).writeChar16
          w.buffers.length r.data.length 0) := by
  have hmod1 : r.data.length % SIZE_MOD = r.data.length := Nat.mod_eq_of_lt (by omega)
  have hmod2 : (r.data.length + 1) % SIZE_MOD = r.data.length + 1 := Nat.mod_eq_of_lt hlen
  rw [hmod2] at halloc
  have hm : js_pod_malloc dataOk (r.data.length + 1)
      = some (List.replicate (r.data.length + 1) none) := by
    unfold js_pod_malloc at halloc ⊢
    split at halloc
    · simp at halloc
    · rename_i h1
      split at halloc
      · rename_i h2; simp [h1, h2]
      · simp at halloc
  simp only [NewExternalOneByte, MakeUnique, if_true, ExternalOneByteStringResource.length,
    hmod1, hmod2, hm, UniquePtr.release, UniquePtr.destroyBridge, UniquePtr.destroyChars]
  cases strOk <;> simp [JS_NewExternalString]

/-- On the engine-null path of `NewExternalOneByte`, for every world and
resource: the result is empty, one bridge and one buffer have been added, and
neither deallocation log has grown. -/
theorem NewExternalOneByte_engine_null (w : World) (r : ExternalOneByteStringResource)
    (charIsSigned dataOk : Bool)
    (hlen : r.data.length + 1 < SIZE_MOD)
    (halloc : (js_pod_malloc dataOk ((r.data.length + 1) % SIZE_MOD)).isSome = true) :
    (NewExternalOneByte w r charIsSigned true dataOk false).1 = none ∧
    (NewExternalOneByte w r charIsSigned true dataOk false).2.bridges
      = w.bridges ++ [ExternalStringFinalizerBase .oneByte r.id] ∧
    (NewExternalOneByte w r charIsSigned true dataOk false).2.buffers.length
      = w.buffers.length + 1 ∧
    (NewExternalOneByte w r charIsSigned true dataOk false).2.deletedBridges
      = w.deletedBridges ∧
    (NewExternalOneByte w r charIsSigned true dataOk false).2.freedChars = w.freedChars := by
  rw [NewExternalOneByte_allocated w r charIsSigned dataOk false hlen halloc]
  obtain ⟨a1, a2, a3, a4, a5⟩ := writeChar16_fields
    (inflateLoop charIsSigned r.data w.buffers.length r.data.length 0
      { w with
        bridges := w.bridges ++ [ExternalStringFinalizerBase .oneByte r.id]
        buffers := w.buffers ++ [List.replicate (r.data.length + 1) none] })
    w.buffers.length r.data.length 0
  obtain ⟨b1, b2, b3, b4, b5⟩ := inflateLoop_fields charIsSigned r.data w.buffers.length
    r.data.length 0
    { w with
      bridges := w.bridges ++ [ExternalStringFinalizerBase .oneByte r.id]
      buffers := w.buffers ++ [List.replicate (r.data.length + 1) none] }
  refine ⟨rfl, ?_, ?_, ?_, ?_⟩
  · simp only [a1, b1]
  · simp only [a5, b5, List.length_append, List.length_singleton]
  · simp only [a2, b2]
  · simp only [a3, b3]

/-- On the engine-null path of `NewExternalTwoByte`, for every world and
resource: the result is empty and the bridge stays allocated, no log has
grown. -/
theorem NewExternalTwoByte_engine_null (w : World) (r : ExternalStringResource) :
    NewExternalTwoByte w r true false
      = (none, { w with bridges := w.bridges ++ [ExternalStringFinalizerBase .twoByte r.id] }) := by
  rfl

/-- On the path of `NewExternalOneByte` where the buffer allocation fails, for
every world and resource: the result is empty and the bridge is deleted once,
by the destructor of `fin`. -/
theorem NewExternalOneByte_buffer_null (w : World) (r : ExternalOneByteStringResource)
    (charIsSigned strOk : Bool) :
    NewExternalOneByte w r charIsSigned true false strOk
      = (none,
          { w with
            bridges := w.bridges ++ [ExternalStringFinalizerBase .oneByte r.id]
            deletedBridges := w.deletedBridges ++ [w.bridges.length] }) := by
  have hm : ∀ k, js_pod_malloc false k = none := by
    intro k; unfold js_pod_malloc; split <;> rfl
  simp only [NewExternalOneByte, MakeUnique, if_true, hm, UniquePtr.destroyBridge,
    World.deleteBridge]

/-- C1: whenever the buffer allocation of `NewExternalOneByte` succeeds, the
derived buffer (at the fresh address, the one passed to the engine and stored
in the resulting string) has exactly `n + 1` units, unit `i < n` is the byte
`b[i]` zero-extended, a value in `0..255` whether `char` is signed or not, and
unit `n` is `0`. -/
theorem NewExternalOneByte_derived_buffer (w : World) (r : ExternalOneByteStringResource)
    (charIsSigned dataOk strOk : Bool)
    (hbytes : ∀ b ∈ r.data, b < 256)
    (hlen : r.data.length + 1 < SIZE_MOD)
    (halloc : (js_pod_malloc dataOk ((r.data.length + 1) % SIZE_MOD)).isSome = true) :
    ∃ buf : TwoByteChars,
      (NewExternalOneByte w r charIsSigned true dataOk strOk).2.buffers[w.buffers.length]?
        = some buf ∧
      buf.length = r.data.length + 1 ∧
      (∀ i (hi : i < r.data.length), buf[i]? = some (some r.data[i]) ∧ r.data[i] ≤ 255) ∧
      buf[r.data.length]? = some (some 0) ∧
      (strOk = true →
        (NewExternalOneByte w r charIsSigned true dataOk strOk).1 =
          some { chars := .derived w.buffers.length, length := r.data.length,
                 fin := w.bridges.length }) := by
  -- the world after the allocation of the bridge and of the buffer
  let w1 : World :=
    { w with
      bridges := w.bridges ++ [ExternalStringFinalizerBase .oneByte r.id]
      buffers := w.buffers ++ [List.replicate (r.data.length + 1) none] }
  have hw1 : w1.buffers[w.buffers.length]? = some (List.replicate (r.data.length + 1) none) := by
    simp [w1]
  obtain ⟨buf1, e1, l1, g1⟩ := inflateLoop_buffer charIsSigned r.data w.buffers.length hbytes
    r.data.length 0 w1 _ hw1 (by omega)
  have e2 := writeChar16_buffer _ w.buffers.length r.data.length 0 buf1 e1
  rw [NewExternalOneByte_allocated w r charIsSigned dataOk strOk hlen halloc]
  refine ⟨buf1.set r.data.length (some (0 % 65536)), e2, ?_, ?_, ?_, ?_⟩
  · simp [l1]
  · intro i hi
    have hne : r.data.length ≠ i := by omega
    rw [List.getElem?_set_ne hne, g1 i]
    have c : (0 ≤ i ∧ i < 0 + r.data.length ∧
        i < (List.replicate (r.data.length + 1) (none : Option Nat)).length) := by
      simp; omega
    rw [if_pos c]
    have hget : r.data.getD i 0 = r.data[i] := by
      simp [List.getD, List.getElem?_eq_getElem hi]
    rw [hget]
    exact ⟨rfl, Nat.le_of_lt_succ (hbytes _ (List.getElem_mem _))⟩
  · rw [List.getElem?_set_self (by rw [l1, List.length_replicate]; omega)]
  · intro hs
    simp [hs, JS_NewExternalString]

/-- C1, witness: the resource with bytes `68 69 E9` on a platform with signed
`char`. -/
theorem NewExternalOneByte_derived_buffer_witness :
    (∀ b ∈ [0x68, 0x69, 0xE9], b < 256) ∧
    [0x68, 0x69, 0xE9].length + 1 < SIZE_MOD ∧
    ∃ buf : TwoByteChars,
      (NewExternalOneByte World.empty { id := 7, data := [0x68, 0x69, 0xE9] }
        true true true true).2.buffers[World.empty.buffers.length]? = some buf ∧
      buf.length = 3 + 1 ∧
      (∀ i (hi : i < 3), buf[i]? = some (some [0x68, 0x69, 0xE9][i]) ∧
        [0x68, 0x69, 0xE9][i] ≤ 255) ∧
      buf[3]? = some (some 0) ∧
      (true = true →
        (NewExternalOneByte World.empty { id := 7, data := [0x68, 0x69, 0xE9] }
          true true true true).1 =
          some { chars := .derived World.empty.buffers.length, length := 3,
                 fin := World.empty.bridges.length }) :=
  ⟨by decide, by decide,
    NewExternalOneByte_derived_buffer World.empty { id := 7, data := [0x68, 0x69, 0xE9] }
      true true true (by decide) (by decide) (by decide)⟩

/-- C3, the code at the failing input: when the engine constructor returns
null, both constructors return an empty result and leave the bridge (and the
derived buffer) allocated, deleted zero times; when instead the buffer
allocation fails, the bridge is deleted exactly once. -/
theorem NewExternal_engine_failure_leaks :
    NewExternalOneByte World.empty { id := 7, data := [0x68, 0x69] } true true true false
      = (none,
          { bridges := [{ finalize := .oneByte, resource_ := some 7 }],
            buffers := [[some 0x68, some 0x69, some 0]],
            deletedBridges := [], freedChars := [], disposed := [] }) ∧
    NewExternalTwoByte World.empty { id := 7, data := [0x68, 0x69] } true false
      = (none,
          { bridges := [{ finalize := .twoByte, resource_ := some 7 }], buffers := [],
            deletedBridges := [], freedChars := [], disposed := [] }) ∧
    NewExternalOneByte World.empty { id := 7, data := [0x68, 0x69] } true true false true
      = (none,
          { bridges := [{ finalize := .oneByte, resource_ := some 7 }], buffers := [],
            deletedBridges := [0], freedChars := [], disposed := [] }) := by
  decide

/-- C4: on an Armed bridge, one invocation of the one-byte
`FinalizeExternalString(fin, chars)` calls `Dispose()` exactly once, frees
`chars` exactly once and deletes the bridge exactly once. -/
theorem OneByte_FinalizeExternalString_effects (w : World) (fin : Nat) (b : Bridge) (r : Nat)
    (chars : CharsPtr) (hb : w.bridges[fin]? = some b) (hr : b.resource_ = some r) :
    ∃ w1 : World,
      ExternalOneByteStringFinalizer.FinalizeExternalString w fin chars = some w1 ∧
      w1.disposed = w.disposed ++ [r] ∧
      w1.freedChars = w.freedChars ++ [(chars, .operatorDelete)] ∧
      w1.deletedBridges = w.deletedBridges ++ [fin] ∧
      w1.disposeCalls r = w.disposeCalls r + 1 ∧
      w1.charsFrees chars = w.charsFrees chars + 1 ∧
      w1.bridgeDeletes fin = w.bridgeDeletes fin + 1 ∧
      w1.buffers = w.buffers := by
  refine ⟨{ w with
      disposed := w.disposed ++ [r]
      bridges := w.bridges.set fin { b with resource_ := none }
      deletedBridges := w.deletedBridges ++ [fin]
      freedChars := w.freedChars ++ [(chars, .operatorDelete)] }, ?_, rfl, rfl, rfl, ?_, ?_, ?_, rfl⟩
  · unfold ExternalOneByteStringFinalizer.FinalizeExternalString
    rw [dispose_armed w fin b r hb hr]
    rfl
  · simp [World.disposeCalls, List.count_append]
  · simp [World.charsFrees, List.count_append]
  · simp [World.bridgeDeletes, List.count_append]

/-- C4, witness: the string built by `NewExternalOneByte` over the bytes `hi`
is finalized; afterwards the resource was disposed once, and the derived
buffer and the bridge were each released once. -/
theorem OneByte_FinalizeExternalString_effects_witness :
    (NewExternalOneByte World.empty { id := 7, data := [0x68, 0x69] }
        true true true true).2.bridges[0]?
      = some { finalize := .oneByte, resource_ := some 7 } ∧
    ∃ w1 : World,
      ExternalOneByteStringFinalizer.FinalizeExternalString
        (NewExternalOneByte World.empty { id := 7, data := [0x68, 0x69] }
          true true true true).2 0 (.derived 0) = some w1 ∧
      w1.disposed = [] ++ [7] ∧
      w1.freedChars = [] ++ [(.derived 0, .operatorDelete)] ∧
      w1.deletedBridges = [] ++ [0] ∧
      w1.disposeCalls 7 = 0 + 1 ∧
      w1.charsFrees (.derived 0) = 0 + 1 ∧
      w1.bridgeDeletes 0 = 0 + 1 ∧
      w1.buffers = [[some 0x68, some 0x69, some 0]] :=
  ⟨by decide,
    OneByte_FinalizeExternalString_effects
      (NewExternalOneByte World.empty { id := 7, data := [0x68, 0x69] }
        true true true true).2 0 { finalize := .oneByte, resource_ := some 7 } 7
      (.derived 0) (by decide) rfl⟩

/-- C5: on an Armed bridge, one invocation of the two-byte
`FinalizeExternalString(fin, chars)` calls `Dispose()` exactly once and
deletes the bridge, and for every pointer `chars` it frees no character buffer
and leaves every buffer unmodified. -/
theorem TwoByte_FinalizeExternalString_effects (w : World) (fin : Nat) (b : Bridge) (r : Nat)
    (chars : CharsPtr) (hb : w.bridges[fin]? = some b) (hr : b.resource_ = some r) :
    ∃ w1 : World,
      ExternalStringFinalizer.FinalizeExternalString w fin chars = some w1 ∧
      w1.disposed = w.disposed ++ [r] ∧
      w1.deletedBridges = w.deletedBridges ++ [fin] ∧
      w1.disposeCalls r = w.disposeCalls r + 1 ∧
      w1.bridgeDeletes fin = w.bridgeDeletes fin + 1 ∧
      w1.freedChars = w.freedChars ∧
      w1.charsFrees chars = w.charsFrees chars ∧
      w1.buffers = w.buffers := by
  refine ⟨{ w with
      disposed := w.disposed ++ [r]
      bridges := w.bridges.set fin { b with resource_ := none }
      deletedBridges := w.deletedBridges ++ [fin] }, ?_, rfl, rfl, ?_, ?_, rfl, rfl, rfl⟩
  · unfold ExternalStringFinalizer.FinalizeExternalString
    exact dispose_armed w fin b r hb hr
  · simp [World.disposeCalls, List.count_append]
  · simp [World.bridgeDeletes, List.count_append]

/-- C5, witness: the string built by `NewExternalTwoByte` is finalized with the
resource's own buffer. -/
theorem TwoByte_FinalizeExternalString_effects_witness :
    (NewExternalTwoByte World.empty { id := 7, data := [0x68, 0x69] } true true).2.bridges[0]?
      = some { finalize := .twoByte, resource_ := some 7 } ∧
    ∃ w1 : World,
      ExternalStringFinalizer.FinalizeExternalString
        (NewExternalTwoByte World.empty { id := 7, data := [0x68, 0x69] } true true).2 0
        (.borrowed 7) = some w1 ∧
      w1.disposed = [] ++ [7] ∧
      w1.deletedBridges = [] ++ [0] ∧
      w1.disposeCalls 7 = 0 + 1 ∧
      w1.bridgeDeletes 0 = 0 + 1 ∧
      w1.freedChars = [] ∧
      w1.charsFrees (.borrowed 7) = 0 ∧
      w1.buffers = [] :=
  ⟨by decide,
    TwoByte_FinalizeExternalString_effects
      (NewExternalTwoByte World.empty { id := 7, data := [0x68, 0x69] } true true).2 0
      { finalize := .twoByte, resource_ := some 7 } 7 (.borrowed 7) (by decide) rfl⟩

/-- The life of the two external strings over the bytes `hi`: construction,
then collection by the engine through the registered `finalize` slot. Each
resource is disposed once, each bridge deleted once, and only the derived
buffer of the one-byte string is freed. -/
theorem external_string_lifecycle :
    finalizeString
        (NewExternalOneByte World.empty { id := 7, data := [0x68, 0x69] } true true true true).2
        { chars := .derived 0, length := 2, fin := 0 }
      = some { bridges := [{ finalize := .oneByte, resource_ := none }],
               buffers := [[some 0x68, some 0x69, some 0]],
               deletedBridges := [0], freedChars := [(.derived 0, .operatorDelete)],
               disposed := [7] } ∧
    finalizeString
        (NewExternalTwoByte World.empty { id := 7, data := [0x68, 0x69] } true true).2
        { chars := .borrowed 7, length := 2, fin := 0 }
      = some { bridges := [{ finalize := .twoByte, resource_ := none }],
               buffers := [],
               deletedBridges := [0], freedChars := [], disposed := [7] } := by
  decide

/-! ## Claims on the string facade -/

/-- The value of `String::Empty(isolate)`: the empty string when both engine
allocations succeed, the empty handle otherwise. -/
theorem Empty_eq (kMaxLength : Int) (eng : Engine) (hk : 0 ≤ kMaxLength) :
    Empty kMaxLength eng =
      if eng.inflateOk = true then
        if eng.newStringOk = true then
          .ok ([.UTF8CharsToNewTwoByteCharsZ [], .JS_NewUCString [0] 0], some (.flat []))
        else .ok ([.UTF8CharsToNewTwoByteCharsZ [], .JS_NewUCString [0] 0], none)
      else .ok ([.UTF8CharsToNewTwoByteCharsZ []], none) := by
  have h1 : ¬ ((-1 : Int) > kMaxLength) := by omega
  have h2 : toSizeT (toInt32 (Int.ofNat 0)) = 0 := by decide
  unfold Empty NewFromUtf8Local NewFromUtf8
  rw [if_neg (by simp), if_neg h1, if_pos (by decide)]
  have h3 : strlen [0] = some 0 := rfl
  rw [h3]
  simp only [Option.map_some']
  rw [h2]
  rcases eng with ⟨m, i, s, c, f, ml⟩
  cases i <;> cases s <;> rfl

/-- C6, as stated, fails: when the engine's concatenation fails and the
allocation failure persists through the fallback `Empty(isolate)`, `Concat`
returns the empty (null) handle. -/
theorem Concat_returns_null_handle :
    Concat kMaxLengthV8 { engineOk with concatOk := false, inflateOk := false }
        (.flat [0x61]) (.flat [0x62])
      = .ok ([.JS_ConcatStrings (.flat [0x61]) (.flat [0x62]),
              .UTF8CharsToNewTwoByteCharsZ []], none) := by
  decide

/-- C6 (amended): `Concat` on two valid handles always returns; the handle is
the concatenation when the engine's concatenation succeeds, the empty string
when it fails and the two allocations of the fallback `Empty(isolate)`
succeed, and the empty (null) handle when the fallback fails as well. -/
theorem Concat_result (kMaxLength : Int) (eng : Engine) (left right : JSString)
    (hk : 0 ≤ kMaxLength) :
    ∃ calls h, Concat kMaxLength eng left right = .ok (calls, h) ∧
      (∀ s, JS_ConcatStrings eng left right = some s →
        h = some s ∧ s.chars = left.chars ++ right.chars) ∧
      (JS_ConcatStrings eng left right = none → eng.inflateOk = true →
        eng.newStringOk = true → h = some (.flat [])) ∧
      (JS_ConcatStrings eng left right = none →
        (eng.inflateOk = false ∨ eng.newStringOk = false) → h = none) := by
  unfold Concat
  cases hc : JS_ConcatStrings eng left right with
  | some s =>
    refine ⟨_, some s, rfl, ?_, ?_, ?_⟩
    · intro s1 hs1
      cases hs1
      refine ⟨rfl, ?_⟩
      unfold JS_ConcatStrings at hc
      split at hc
      · cases hc
      · split at hc
        · cases hc; rfl
        · cases hc
    · intro h; cases h
    · intro h; cases h
  | none =>
    rw [Empty_eq kMaxLength eng hk]
    rcases eng with ⟨m, i, s, c, f, ml⟩
    cases i <;> cases s <;> simp

/-- C6 (amended), witness: concatenation fails, the fallback succeeds. -/
theorem Concat_result_witness :
    (0 : Int) ≤ kMaxLengthV8 ∧
    ∃ calls h, Concat kMaxLengthV8 { engineOk with concatOk := false }
        (.flat [0x61]) (.flat [0x62]) = .ok (calls, h) ∧
      (∀ s, JS_ConcatStrings { engineOk with concatOk := false } (.flat [0x61]) (.flat [0x62])
          = some s →
        h = some s ∧ s.chars = (JSString.flat [0x61]).chars ++ (JSString.flat [0x62]).chars) ∧
      (JS_ConcatStrings { engineOk with concatOk := false } (.flat [0x61]) (.flat [0x62]) = none →
        ({ engineOk with concatOk := false } : Engine).inflateOk = true →
        ({ engineOk with concatOk := false } : Engine).newStringOk = true →
        h = some (.flat [])) ∧
      (JS_ConcatStrings { engineOk with concatOk := false } (.flat [0x61]) (.flat [0x62]) = none →
        (({ engineOk with concatOk := false } : Engine).inflateOk = false ∨
          ({ engineOk with concatOk := false } : Engine).newStringOk = false) → h = none) :=
  ⟨by decide,
    Concat_result kMaxLengthV8 { engineOk with concatOk := false } (.flat [0x61]) (.flat [0x62])
      (by decide)⟩

/-- C7: with `length > kMaxLength`, `NewFromUtf8(isolate, data, kNormal,
length)` returns the failed result for every `data` and every engine, and has
made no engine call: neither the UTF-8 conversion nor the string constructor
ran. -/
theorem NewFromUtf8_length_above_kMaxLength (kMaxLength : Int) (eng : Engine) (data : List Nat)
    (length : Int) (h : length > kMaxLength) :
    NewFromUtf8 kMaxLength eng data .kNormal length = .ok ([], none) := by
  unfold NewFromUtf8
  rw [if_neg (by simp), if_pos h]

/-- C7, witness: a length one above `kMaxLength`, with a null `data`. -/
theorem NewFromUtf8_length_above_kMaxLength_witness :
    (268435441 : Int) > kMaxLengthV8 ∧
    NewFromUtf8 kMaxLengthV8 engineOk [] .kNormal 268435441 = .ok ([], none) :=
  ⟨by decide,
    NewFromUtf8_length_above_kMaxLength kMaxLengthV8 engineOk [] 268435441 (by decide)⟩

/-- C8: when `NewFromUtf8` is given the bytes `s` with their explicit length
and constructs a string (which requires `s` to be valid UTF-8 of length at
most `kMaxLength`), `Utf8Length` of that string is the byte length of `s`. -/
theorem Utf8Length_NewFromUtf8 (kMaxLength : Int) (eng : Engine) (s : List Nat)
    (calls : List EngineCall) (str : JSString) (hk : kMaxLength < 2147483648)
    (h : NewFromUtf8 kMaxLength eng s .kNormal (Int.ofNat s.length) = .ok (calls, some str)) :
    Utf8Length eng str = Int.ofNat s.length := by
  unfold NewFromUtf8 at h
  rw [if_neg (by simp)] at h
  by_cases hgt : Int.ofNat s.length > kMaxLength
  · rw [if_pos hgt] at h
    cases h
  · rw [if_neg hgt, if_neg (by simp)] at h
    have hlen : s.length < 2147483648 := by
      have : (s.length : Int) ≤ kMaxLength := by simpa using hgt
      omega
    have h2 : toSizeT (Int.ofNat s.length) = s.length :=
      toSizeT_natCast s.length (by omega)
    simp only [] at h
    rw [h2] at h
    unfold NewFromUtf8.construct at h
    rw [if_neg (by omega), List.take_length] at h
    unfold UTF8CharsToNewTwoByteCharsZ at h
    dsimp only at h
    cases hd : decodeUtf8 s with
    | none => rw [hd] at h; cases h
    | some cps =>
      rw [hd] at h
      cases hi : eng.inflateOk with
      | false =>
        simp only [hi, Bool.false_eq_true, if_false] at h
        cases h
      | true =>
        simp only [hi, if_true, JS_NewUCString] at h
        by_cases hm : eng.maxLength < (cps.flatMap utf16Units).length
        · simp only [hm, if_true] at h
          cases h
        · cases hs : eng.newStringOk with
          | false =>
            simp only [hm, hs, Bool.false_eq_true, if_false] at h
            cases h
          | true =>
            simp only [hm, hs, if_true, if_false, Except.ok.injEq, Prod.mk.injEq,
              Option.some.injEq] at h
            obtain ⟨_, rfl⟩ := h
            rw [List.take_left']
            · unfold Utf8Length JS_FlattenString
              simp only []
              rw [decodeUtf8_deflated s.length s cps rfl hd]
              exact toInt32_natCast s.length hlen
            · rfl

/-- C8, witness: a text with sequences of one, two, three and four bytes. -/
theorem Utf8Length_NewFromUtf8_witness :
    kMaxLengthV8 < 2147483648 ∧
    NewFromUtf8 kMaxLengthV8 engineOk sampleUtf8 .kNormal (Int.ofNat sampleUtf8.length)
      = .ok ([.UTF8CharsToNewTwoByteCharsZ sampleUtf8,
              .JS_NewUCString [0x68, 0xE9, 0x20AC, 0xD83D, 0xDE00, 0] 5],
          some (.flat [0x68, 0xE9, 0x20AC, 0xD83D, 0xDE00])) ∧
    Utf8Length engineOk (.flat [0x68, 0xE9, 0x20AC, 0xD83D, 0xDE00])
      = Int.ofNat sampleUtf8.length :=
  ⟨by decide, by decide,
    Utf8Length_NewFromUtf8 kMaxLengthV8 engineOk sampleUtf8
      [.UTF8CharsToNewTwoByteCharsZ sampleUtf8,
        .JS_NewUCString [0x68, 0xE9, 0x20AC, 0xD83D, 0xDE00, 0] 5]
      (.flat [0x68, 0xE9, 0x20AC, 0xD83D, 0xDE00]) (by decide) (by decide)⟩

/-- C9, the code at the failing input: when `js_pod_malloc` returns null,
`GetFlatString` on a flat string does not return null; it passes the null
buffer on and stores through it, and `String::Value` inherits the fault. -/
theorem GetFlatString_null_buffer_dereference (eng : Engine) (chars : List Nat)
    (lengthNonNull : Bool) :
    GetFlatString { eng with mallocOk := false } (.flat chars) lengthNonNull
      = .error .nullDereference ∧
    StringValue.Value { eng with mallocOk := false } (.flat chars) = .error .nullDereference := by
  have h : ∀ b, GetFlatString { eng with mallocOk := false } (.flat chars) b
      = .error .nullDereference := by
    intro b
    have hm : ∀ k, js_pod_malloc false k = none := by
      intro k; unfold js_pod_malloc; split <;> rfl
    unfold GetFlatString
    simp only [hm, JS_CopyStringChars, JS_FlattenString]
    cases chars <;> simp
  refine ⟨h _, ?_⟩
  unfold StringValue.Value
  rw [h]

/-- The success path of `GetFlatString` and `String::Value`: for a flat
string of `len` units whose buffer is allocated, the buffer holds the `len`
units followed by a zero unit and the reported length is `len`. -/
theorem GetFlatString_success (eng : Engine) (chars : List Nat) (lengthNonNull : Bool)
    (hm : eng.mallocOk = true) (hlen : (chars.length + 1) * 2 < SIZE_MOD) :
    GetFlatString eng (.flat chars) lengthNonNull
      = .ok (some (chars.map some ++ [some 0]),
          if lengthNonNull then some chars.length else none) ∧
    StringValue.Value eng (.flat chars)
      = .ok { str_ := some (chars.map some ++ [some 0]), length_ := chars.length } := by
  have h1 : chars.length % SIZE_MOD = chars.length := Nat.mod_eq_of_lt (by omega)
  have h2 : (chars.length + 1) % SIZE_MOD = chars.length + 1 := Nat.mod_eq_of_lt (by omega)
  have h3 : js_pod_malloc eng.mallocOk (chars.length + 1)
      = some (List.replicate (chars.length + 1) none) := by
    unfold js_pod_malloc
    rw [if_neg (by omega), hm]
    rfl
  have h4 : (chars.map some ++ (List.replicate (chars.length + 1) (none : Option Nat)).drop
      chars.length).set chars.length (some 0) = chars.map some ++ [some 0] := by
    have : (List.replicate (chars.length + 1) (none : Option Nat)).drop chars.length = [none] := by
      simp
    rw [this, List.set_append_right _ _ (by simp)]
    simp
  have hg : ∀ b, GetFlatString eng (.flat chars) b
      = .ok (some (chars.map some ++ [some 0]), if b then some chars.length else none) := by
    intro b
    unfold GetFlatString JS_CopyStringChars JS_FlattenString JS_GetStringLength
    simp only [JSString.chars, h1, h2, h3, h4]
  refine ⟨hg _, ?_⟩
  unfold StringValue.Value
  rw [hg]
  rfl

/-- The other failure of `GetFlatString`: when the buffer is allocated but the
rope cannot be linearised, `JS_CopyStringChars` returns `false`, the result is
null, and `String::Value` reports length `0` and null data. -/
theorem GetFlatString_linearize_failure (eng : Engine) (l r : JSString)
    (hf : eng.flattenOk = false) :
    (∃ stored, GetFlatString eng (.rope l r) true = .ok (none, stored)) ∧
    StringValue.Value eng (.rope l r) = .ok { str_ := none, length_ := 0 } := by
  have hg : GetFlatString eng (.rope l r) true
      = .ok (none, some (JS_GetStringLength (.rope l r) % SIZE_MOD)) := by
    unfold GetFlatString JS_CopyStringChars JS_FlattenString
    simp only [hf]
    rfl
  refine ⟨⟨_, hg⟩, ?_⟩
  unfold StringValue.Value
  rw [hg]

/-- C10, as stated, fails: with `length = -1` and `kMaxLength + 1` bytes
before the first NUL, the computed length exceeds `kMaxLength` and the call
still constructs the string. -/
theorem strlen_above_kMaxLength_constructs :
    strlen (List.replicate 268435441 0x41 ++ [0]) = some 268435441 ∧
    (268435441 : Int) > kMaxLengthV8 ∧
    ∃ calls, NewFromUtf8 kMaxLengthV8 engineOk (List.replicate 268435441 0x41 ++ [0])
        .kNormal (-1)
      = .ok (calls, some (.flat (List.replicate 268435441 0x41))) :=
  ⟨strlen_replicate 0x41 (by decide) 268435441, by decide,
    NewFromUtf8_ascii_run kMaxLengthV8 engineOk 0x41 268435441 (by decide) (by decide)
      (by decide) (by decide) rfl rfl (by decide)⟩

/-- C10 (amended): with `length < 0` the length is the number `n` of bytes
before the first NUL, the conversion is applied to exactly those bytes, and
the result is what the engine's conversion and string constructor give for
them. `kMaxLength` plays no part: the test against it was made on the `length`
argument, before `n` was computed. -/
theorem NewFromUtf8_computed_length (kMaxLength : Int) (eng : Engine) (data : List Nat)
    (length : Int) (n : Nat) (hk : 0 ≤ kMaxLength) (hl : length < 0)
    (hn : strlen data = some n) (h31 : n < 2147483648) :
    (data[n]? = some 0 ∧ ∀ b ∈ data.take n, b ≠ 0) ∧
    ∃ calls, NewFromUtf8 kMaxLength eng data .kNormal length =
        .ok (calls,
          match UTF8CharsToNewTwoByteCharsZ eng (data.take n) with
          | none => none
          | some (chars, len) => JS_NewUCString eng chars len) ∧
      calls.head? = some (.UTF8CharsToNewTwoByteCharsZ (data.take n)) :=
  ⟨strlen_spec data n hn, NewFromUtf8_after_strlen kMaxLength eng data length n hk hl hn h31⟩

/-- C10 (amended), witness: five bytes before the NUL, `kMaxLength = 3`. -/
theorem NewFromUtf8_computed_length_witness :
    (0 : Int) ≤ 3 ∧ (-1 : Int) < 0 ∧
    strlen [0x68, 0x68, 0x68, 0x68, 0x68, 0] = some 5 ∧ 5 < 2147483648 ∧
    (([0x68, 0x68, 0x68, 0x68, 0x68, 0] : List Nat)[5]? = some 0 ∧
      ∀ b ∈ ([0x68, 0x68, 0x68, 0x68, 0x68, 0] : List Nat).take 5, b ≠ 0) ∧
    ∃ calls, NewFromUtf8 3 engineOk [0x68, 0x68, 0x68, 0x68, 0x68, 0] .kNormal (-1) =
        .ok (calls,
          match UTF8CharsToNewTwoByteCharsZ engineOk
              (([0x68, 0x68, 0x68, 0x68, 0x68, 0] : List Nat).take 5) with
          | none => none
          | some (chars, len) => JS_NewUCString engineOk chars len) ∧
      calls.head? = some (.UTF8CharsToNewTwoByteCharsZ
        (([0x68, 0x68, 0x68, 0x68, 0x68, 0] : List Nat).take 5)) :=
  ⟨by decide, by decide, by decide, by decide,
    NewFromUtf8_computed_length 3 engineOk [0x68, 0x68, 0x68, 0x68, 0x68, 0] (-1) 5
      (by decide) (by decide) (by decide) (by decide)⟩

end SpiderShim
